import Mathlib

/-!
Verification of the text-chunking and audio-assembly core of a set of
command-line scripts wrapping a hosted AI API, together with the startup
credential check shared by all scripts.

Python strings are embedded as `List Char` (`Str`); each Lean definition
mirrors one Python function or code block of the repository, noted in its
doc comment.
-/

/-- A Python string, embedded as its list of characters. -/
abbrev Str := List Char

/-- The whitespace characters recognised by `str.strip()` on the inputs in
scope (space, tab, newline, carriage return). -/
def isWS (c : Char) : Bool := c = ' ' || c = '\t' || c = '\n' || c = '\r'

/-- Left part of Python `str.strip()`: drop leading whitespace. -/
def stripL (s : Str) : Str := s.dropWhile isWS

/-- Right part of Python `str.strip()`: drop trailing whitespace. -/
def stripR (s : Str) : Str := s.rdropWhile isWS

/-- Python `str.strip()`: drop leading and trailing whitespace. -/
def strip (s : Str) : Str := stripR (stripL s)

/-- Python `sentence.endswith('.')`. -/
def endsWithDot (s : Str) : Bool := s.getLast? == some '.'

/-- `text.replace('\n', ' ')` from `split_text` (text_to_speech_file.py
line 17): every newline becomes a single space. -/
def pyReplaceNewline (s : Str) : Str := s.map (fun c => if c = '\n' then ' ' else c)

/-- Python `text.split('. ')`: split on each non-overlapping occurrence of
the two-character delimiter, left to right; the empty string yields
`[""]`. -/
def pySplitDotSpace : Str → List Str
  | [] => [[]]
  | '.' :: ' ' :: rest => [] :: pySplitDotSpace rest
  | c :: rest =>
    match pySplitDotSpace rest with
    | [] => [[c]]
    | piece :: pieces => (c :: piece) :: pieces

/-- The per-sentence normalisation done at the top of the loop body of
`split_text` (lines 23-25): `sentence = sentence.strip()` followed by
`if sentence and not sentence.endswith('.'): sentence += '.'`. -/
def normSentence (s : Str) : Str :=
  if !(strip s).isEmpty && !endsWithDot (strip s) then strip s ++ ['.'] else strip s

/-- The normalised sentence sequence that the loop of `split_text`
iterates over: `text.replace('\n', ' ').split('. ')` with the loop-body
normalisation applied to each element (the normalisation is a pure
per-element map, hoisted out of the loop). -/
def normSentences (text : Str) : List Str :=
  (pySplitDotSpace (pyReplaceNewline text)).map normSentence

/-- `if current_chunk: chunks.append(current_chunk.strip())` (lines 30-31
and 34-35 of text_to_speech_file.py). -/
def addChunk (chunks : List Str) (current : Str) : List Str :=
  if current.isEmpty then chunks else chunks ++ [strip current]

/-- The accumulation loop of `split_text` (lines 21-35), over the already
normalised sentences, carrying the accumulated `chunks` and the growing
`current_chunk`. -/
def splitLoop (maxLength : Nat) : List Str → List Str → Str → List Str
  | [], chunks, current => addChunk chunks current
  | s :: rest, chunks, current =>
    if current.length + s.length + 1 ≤ maxLength then
      splitLoop maxLength rest chunks (current ++ s ++ [' '])
    else
      splitLoop maxLength rest (addChunk chunks current) (s ++ [' '])

/-- `split_text(text, max_length)` from text_to_speech_file.py
(lines 12-37). -/
def split_text (text : Str) (maxLength : Nat) : List Str :=
  splitLoop maxLength (normSentences text) [] []

/-! ### Group decomposition of the chunker

A chunk is the stripped concatenation of a consecutive group of
normalised sentences, each followed by the single space that line 28 of
text_to_speech_file.py appends. `splitGroupsLoop` is the same loop as
`splitLoop`, recording the groups themselves instead of their rendered
chunks. -/

/-- The string rendering of an (open or closed) group of sentences:
each sentence followed by one space, exactly how `current_chunk` is
built. -/
def groupStr (g : List Str) : Str := (g.map (· ++ [' '])).flatten

/-- The chunk finally produced from a group: its rendering, stripped. -/
def chunkOfGroup (g : List Str) : Str := strip (groupStr g)

/-- Group-level counterpart of `addChunk`. -/
def addGroup (gs : List (List Str)) (cur : List Str) : List (List Str) :=
  if cur.isEmpty then gs else gs ++ [cur]

/-- Group-level counterpart of `splitLoop`: identical control flow,
with `current_chunk` kept as the list of sentences it was built from. -/
def splitGroupsLoop (maxLength : Nat) :
    List Str → List (List Str) → List Str → List (List Str)
  | [], gs, cur => addGroup gs cur
  | s :: rest, gs, cur =>
    if (groupStr cur).length + s.length + 1 ≤ maxLength then
      splitGroupsLoop maxLength rest gs (cur ++ [s])
    else
      splitGroupsLoop maxLength rest (addGroup gs cur) [s]

/-- The consecutive sentence groups underlying `split_text`. -/
def splitGroups (maxLength : Nat) (sents : List Str) : List (List Str) :=
  splitGroupsLoop maxLength sents [] []

/-- The non-whitespace content of a string: the comparison measure for
"restores the logical content up to whitespace normalization". -/
def despace (s : Str) : Str := s.filter (fun c => !isWS c)

/-- Invariant of every group closed by the chunker loop: it is non-empty,
all of its sentences come from the input sentence list, and whenever it
holds more than one sentence its rendered length fits the budget (a
multi-sentence group only ever arises from a successful
`current_chunk += sentence + " "` step, whose guard bounds the result). -/
def GoodGroup (maxLength : Nat) (sents : List Str) (g : List Str) : Prop :=
  g ≠ [] ∧ (∀ s ∈ g, s ∈ sents) ∧ (1 < g.length → (groupStr g).length ≤ maxLength)

/-! ### The audio assembler (text_to_speech_file.py lines 126-144 with the
except ladder of lines 165-198) -/

/-- Error classes raised by the vendor client and mapped by each script's
except ladder; every class is reported and leads to `sys.exit(1)`. -/
inductive ApiErr : Type where
  | rateLimit | authentication | apiError | fileNotFound | permission | other
deriving DecidableEq, Repr

/-- Outcome of one run of the synthesis loop of `main`: the chunks
actually passed to `client.audio.speech.create`, in request order; the
bytes written to the output file by the single write at lines 142-144
(`none` when the run aborted before reaching it); the first raised error,
if any; and the process exit status. -/
structure RunOutcome (ε β : Type) where
  calls : List Str
  outFile : Option (List β)
  failure : Option ε
  exitCode : Nat
deriving DecidableEq, Repr

/-- The chunk loop of `main` (lines 126-144): one synthesis request per
chunk, strictly in index order, each returned payload appended to the
single `audio_data` buffer; the buffer is written to the output file only
after the loop has processed every chunk; a raised error aborts the loop
at once, skips the write, and is reported by the except ladder with exit
status 1. -/
def runSynthesis {ε β : Type} (synth : Str → Except ε (List β)) :
    List Str → RunOutcome ε β
  | [] => ⟨[], some [], none, 0⟩
  | c :: cs =>
    match synth c with
    | Except.error e => ⟨[c], none, some e, 1⟩
    | Except.ok b =>
      let r := runSynthesis synth cs
      ⟨c :: r.calls, r.outFile.map (fun rest => b ++ rest), r.failure, r.exitCode⟩

/-! ### Spec-modelled greedy chunker (for the refinement claim)

`greedyFinalize`/`greedyLoop` are modelled from the spec, not the code:
"Sentences are appended to the current chunk while
`current_length + sentence_length + 1 ≤ max_length`; when the next
sentence would overflow, the current chunk is finalized (trailing
whitespace trimmed) and a new chunk begins with that sentence", and "a
trailing non-empty partial chunk is always flushed at end of input"
(§4.1 clauses 3-4). Finalisation trims trailing whitespace only, as the
spec says. -/

/-- Modelled from the spec: finalisation of a non-empty current chunk,
with only trailing whitespace trimmed (§4.1 clause 3). -/
def greedyFinalize (chunks : List Str) (current : Str) : List Str :=
  if current.isEmpty then chunks else chunks ++ [stripR current]

/-- Modelled from the spec: the greedy accumulation loop of §4.1. -/
def greedyLoop (maxLength : Nat) : List Str → List Str → Str → List Str
  | [], chunks, current => greedyFinalize chunks current
  | s :: rest, chunks, current =>
    if current.length + s.length + 1 ≤ maxLength then
      greedyLoop maxLength rest chunks (current ++ s ++ [' '])
    else
      greedyLoop maxLength rest (greedyFinalize chunks current) (s ++ [' '])

/-- Modelled from the spec: the whole greedy chunker of §4.1. -/
def greedy_split (text : Str) (maxLength : Nat) : List Str :=
  greedyLoop maxLength (normSentences text) [] []

/-- The amended spec algorithm: identical to `greedyLoop` except that a
finalized chunk is trimmed of leading AND trailing whitespace
(Python `.strip()`), which is what lines 31 and 35 of the source do. -/
def greedyStripFinalize (chunks : List Str) (current : Str) : List Str :=
  if current.isEmpty then chunks else chunks ++ [strip current]

/-- The amended greedy loop (full strip on finalisation). -/
def greedyStripLoop (maxLength : Nat) : List Str → List Str → Str → List Str
  | [], chunks, current => greedyStripFinalize chunks current
  | s :: rest, chunks, current =>
    if current.length + s.length + 1 ≤ maxLength then
      greedyStripLoop maxLength rest chunks (current ++ s ++ [' '])
    else
      greedyStripLoop maxLength rest (greedyStripFinalize chunks current) (s ++ [' '])

/-- The amended greedy chunker. -/
def greedy_strip_split (text : Str) (maxLength : Nat) : List Str :=
  greedyStripLoop maxLength (normSentences text) [] []

/-! ### Startup control flow of the eight scripts

Each `*_main` below embeds the `main` of one script as the list of its
observable steps, at the granularity the startup claims need: contiguous
blocks of console prints are collapsed into single `info` events, the
unbounded polling loop of fine_tune.py is abstracted to its outcome, and
the optional `--save` write of text_embeddings.py is folded into the
final `info` block. Outbound requests, validation failures, file writes
and `sys.exit` calls are individual events in source order. `argv`
models Python's `sys.argv` (script name included). -/

/-- Python truthiness test `if not api_key:` applied to
`os.environ.get("OPENAI_API_KEY")`: true when the variable is absent
(`None`) or set to the empty string. -/
def keyMissing : Option String → Bool
  | none => true
  | some k => k.isEmpty

/-- Observable step of a script run. -/
inductive Ev : Type where
  | missingKeyError : Ev
  | usage : Ev
  | argError : Ev
  | fileError : Ev
  | emptyInputError : Ev
  | info : Ev
  | apiCall : String → Ev
  | wroteFile : String → Ev
  | apiFailure : ApiErr → Ev
  | exited : Nat → Ev
deriving DecidableEq, Repr

/-- chat_gpt.py `main`: API-key check (lines 11-16) before anything else,
then one chat-completion request, with the except ladder of lines 48-73
mapping any raised error to a report and `sys.exit(1)`. -/
def chat_gpt_main (env : Option String) (chat : Except ApiErr String) : List Ev :=
  if keyMissing env then [Ev.missingKeyError, Ev.exited 1]
  else
    Ev.info :: Ev.apiCall "chat.completions.create" ::
      match chat with
      | Except.ok _ => [Ev.info]
      | Except.error e => [Ev.apiFailure e, Ev.exited 1]

/-- use_fine_tuned_model.py `main`: key check, usage check on `sys.argv`,
then one chat-completion request with the same except ladder. -/
def use_fine_tuned_model_main (env : Option String) (argv : List String)
    (chat : Except ApiErr String) : List Ev :=
  if keyMissing env then [Ev.missingKeyError, Ev.exited 1]
  else if argv.length < 2 then [Ev.usage, Ev.exited 1]
  else
    Ev.info :: Ev.apiCall "chat.completions.create" ::
      match chat with
      | Except.ok _ => [Ev.info]
      | Except.error e => [Ev.apiFailure e, Ev.exited 1]

/-- check_fine_tune_status.py `main`: key check, usage check, then either
the `--list` request or the retrieve-plus-events requests, any raised
error caught by the single generic handler and mapped to exit 1. -/
def check_fine_tune_status_main (env : Option String) (argv : List String)
    (listJobs : Except ApiErr Unit) (retrieveJob : Except ApiErr Unit)
    (listEvents : Except ApiErr Unit) : List Ev :=
  if keyMissing env then [Ev.missingKeyError, Ev.exited 1]
  else if argv.length < 2 then [Ev.usage, Ev.exited 1]
  else if argv.getD 1 "" = "--list" then
    Ev.info :: Ev.apiCall "fine_tuning.jobs.list" ::
      match listJobs with
      | Except.ok _ => [Ev.info]
      | Except.error e => [Ev.apiFailure e, Ev.exited 1]
  else
    Ev.info :: Ev.apiCall "fine_tuning.jobs.retrieve" ::
      match retrieveJob with
      | Except.error e => [Ev.apiFailure e, Ev.exited 1]
      | Except.ok _ =>
        Ev.info :: Ev.apiCall "fine_tuning.jobs.list_events" ::
          match listEvents with
          | Except.ok _ => [Ev.info]
          | Except.error e => [Ev.apiFailure e, Ev.exited 1]

/-- fine_tune.py `main`: key check (lines 17-22), training-file existence
check, then upload, poll-until-processed (the unbounded polling loop of
lines 55-65 abstracted to its outcome: `ok true` = reached "processed",
`ok false` = reached "error", which exits 1), then job creation. -/
def fine_tune_main (env : Option String) (trainingFileExists : Bool)
    (upload : Except ApiErr Unit) (processed : Except ApiErr Bool)
    (createJob : Except ApiErr Unit) : List Ev :=
  if keyMissing env then [Ev.missingKeyError, Ev.exited 1]
  else if !trainingFileExists then [Ev.fileError, Ev.exited 1]
  else
    Ev.info :: Ev.apiCall "files.create" ::
      match upload with
      | Except.error e => [Ev.apiFailure e, Ev.exited 1]
      | Except.ok _ =>
        Ev.info :: Ev.apiCall "files.retrieve" ::
          match processed with
          | Except.error e => [Ev.apiFailure e, Ev.exited 1]
          | Except.ok false => [Ev.info, Ev.exited 1]
          | Except.ok true =>
            Ev.info :: Ev.apiCall "fine_tuning.jobs.create" ::
              match createJob with
              | Except.ok _ => [Ev.info]
              | Except.error e => [Ev.apiFailure e, Ev.exited 1]

/-- The embedding model table shared by text_embeddings.py and
batch_embeddings.py. -/
def embeddingModels : List String :=
  ["text-embedding-3-small", "text-embedding-3-large", "text-embedding-ada-002"]

/-- text_embeddings.py `main`: key check, usage check, compare-mode
dispatch on `sys.argv[1]`, model validation, then one embedding request
(two in compare mode). -/
def text_embeddings_main (env : Option String) (argv : List String)
    (embed1 : Except ApiErr Unit) (embed2 : Except ApiErr Unit) : List Ev :=
  if keyMissing env then [Ev.missingKeyError, Ev.exited 1]
  else if argv.length < 2 then [Ev.usage, Ev.exited 1]
  else if argv.getD 1 "" = "--compare" then
    if argv.length < 4 then [Ev.argError, Ev.exited 1]
    else if !embeddingModels.contains (argv.getD 4 "text-embedding-3-small") then
      [Ev.argError, Ev.exited 1]
    else
      Ev.info :: Ev.apiCall "embeddings.create" ::
        match embed1 with
        | Except.error e => [Ev.apiFailure e, Ev.exited 1]
        | Except.ok _ =>
          Ev.apiCall "embeddings.create" ::
            match embed2 with
            | Except.error e => [Ev.apiFailure e, Ev.exited 1]
            | Except.ok _ => [Ev.info]
  else if !embeddingModels.contains (argv.getD 2 "text-embedding-3-small") then
    [Ev.argError, Ev.exited 1]
  else
    Ev.info :: Ev.apiCall "embeddings.create" ::
      match embed1 with
      | Except.error e => [Ev.apiFailure e, Ev.exited 1]
      | Except.ok _ => [Ev.info]

/-- batch_embeddings.py `main`: key check, usage check, input-file
existence check, model validation, read + empty check, then the batched
embedding loop (one request per 100-line batch, abstracted to its
overall outcome) and the single JSON write. -/
def batch_embeddings_main (env : Option String) (argv : List String)
    (inputExists : Bool) (hasLines : Bool) (embed : Except ApiErr Unit) : List Ev :=
  if keyMissing env then [Ev.missingKeyError, Ev.exited 1]
  else if argv.length < 2 then [Ev.usage, Ev.exited 1]
  else if !inputExists then [Ev.fileError, Ev.exited 1]
  else if !embeddingModels.contains (argv.getD 3 "text-embedding-3-small") then
    [Ev.argError, Ev.exited 1]
  else if !hasLines then [Ev.info, Ev.emptyInputError, Ev.exited 1]
  else
    Ev.info :: Ev.apiCall "embeddings.create" ::
      match embed with
      | Except.error e => [Ev.apiFailure e, Ev.exited 1]
      | Except.ok _ => [Ev.wroteFile (argv.getD 2 "embeddings.json"), Ev.info]

/-- Voice table of the two text-to-speech scripts. -/
def ttsVoices : List String := ["alloy", "echo", "fable", "onyx", "nova", "shimmer"]

/-- Model table of the two text-to-speech scripts. -/
def ttsModels : List String := ["tts-1", "tts-1-hd"]

/-- `output_file.endswith(('.mp3', '.opus', '.aac', '.flac'))` and the
`.mp3` default appended when it fails. -/
def fixExt (f : String) : String :=
  if f.endsWith ".mp3" || f.endsWith ".opus" || f.endsWith ".aac" || f.endsWith ".flac"
  then f else f ++ ".mp3"

/-- text_to_speech.py `main`: key check, usage check, voice and model
validation, extension fix, then one speech request streamed to the
output file. -/
def text_to_speech_main (env : Option String) (argv : List String)
    (speech : Except ApiErr Unit) : List Ev :=
  if keyMissing env then [Ev.missingKeyError, Ev.exited 1]
  else if argv.length < 2 then [Ev.usage, Ev.exited 1]
  else if !ttsVoices.contains (argv.getD 3 "alloy") then [Ev.argError, Ev.exited 1]
  else if !ttsModels.contains (argv.getD 4 "tts-1") then [Ev.argError, Ev.exited 1]
  else
    Ev.info :: Ev.apiCall "audio.speech.create" ::
      match speech with
      | Except.error e => [Ev.apiFailure e, Ev.exited 1]
      | Except.ok _ => [Ev.wroteFile (fixExt (argv.getD 2 "speech.mp3")), Ev.info]

/-- text_to_speech_file.py `main` (lines 39-198): key check (40-45),
usage check, input-file existence, voice and model validation, extension
fix, read + trim + empty check, `split_text` with the default 4096
budget, the synthesis loop (`runSynthesis`, one `apiCall` event per
request actually issued), and the single output write, reached only when
every chunk succeeded. -/
def text_to_speech_file_main (env : Option String) (argv : List String)
    (inputExists : Bool) (contents : Str)
    (synth : Str → Except ApiErr (List Nat)) : List Ev :=
  if keyMissing env then [Ev.missingKeyError, Ev.exited 1]
  else if argv.length < 2 then [Ev.usage, Ev.exited 1]
  else if !inputExists then [Ev.fileError, Ev.exited 1]
  else if !ttsVoices.contains (argv.getD 3 "alloy") then [Ev.argError, Ev.exited 1]
  else if !ttsModels.contains (argv.getD 4 "tts-1") then [Ev.argError, Ev.exited 1]
  else
    let text := strip contents
    if text.isEmpty then [Ev.info, Ev.emptyInputError, Ev.exited 1]
    else
      let r := runSynthesis synth (split_text text 4096)
      Ev.info :: (r.calls.map (fun _ => Ev.apiCall "audio.speech.create") ++
        match r.failure with
        | some e => [Ev.apiFailure e, Ev.exited 1]
        | none => [Ev.wroteFile (fixExt (argv.getD 2 "speech_output.mp3")), Ev.info])

/-! ### Concrete inputs used by the scenario claims -/

/-- The 29-character scenario input of §8 of the spec. -/
def c4text : Str := "Hello world. This is a test. ".toList

/-- The input exhibiting a chunk with leading whitespace before
finalisation: its first sentence is empty, so `current_chunk` starts
with a space that `.strip()` removes but trailing-only trimming keeps. -/
def cexC7 : Str := ". ab".toList

/-- A concrete always-succeeding synthesis stub returning each chunk's own
characters as its payload. -/
def echoSynth : Str → Except ApiErr (List Char) := fun c => Except.ok c

/-- A concrete synthesis stub that succeeds on the first chunk of the
scenario input and fails with a rate-limit error on every other chunk. -/
def failingSynth : Str → Except ApiErr (List Nat) :=
  fun c => if c = "Hello world.".toList then Except.ok [1, 2]
    else Except.error ApiErr.rateLimit

/-! ## Lemmas about `strip` -/

theorem length_strip_le (s : Str) : (strip s).length ≤ s.length :=
  le_trans ( List.rdropWhile_prefix isWS (stripL s)).length_le
    (List.dropWhile_suffix isWS).length_le

theorem strip_append_space (s : Str) : strip (s ++ [' ']) = strip s := by
  show List.rdropWhile isWS (List.dropWhile isWS (s ++ [' '])) =
    List.rdropWhile isWS (List.dropWhile isWS s)
  rw [List.dropWhile_append]
  by_cases h : (s.dropWhile isWS).isEmpty
  · rw [if_pos h]
    rw [List.isEmpty_iff] at h
    rw [h]
    rfl
  · rw [if_neg h]
    exact List.rdropWhile_concat_pos _ _ _ (by decide)

theorem head_strip_not_ws (s : Str) (c : Char) (hc : (strip s).head? = some c) :
    isWS c = false := by
  obtain ⟨t, ht⟩ := List.rdropWhile_prefix isWS (stripL s)
  have h2 := List.head?_dropWhile_not isWS s
  cases hz : strip s with
  | nil => rw [hz] at hc; exact absurd hc (by simp)
  | cons d rest =>
    rw [hz] at hc
    have hcd : c = d := by simpa using hc.symm
    subst hcd
    have hz' : List.rdropWhile isWS (stripL s) = c :: rest := hz
    rw [hz'] at ht
    have hs : s.dropWhile isWS = c :: (rest ++ t) := by
      simpa [stripL] using ht.symm
    rw [hs] at h2
    simpa using h2

theorem stripL_strip (s : Str) : stripL (strip s) = strip s := by
  cases hz : strip s with
  | nil => rfl
  | cons d rest =>
    have hd : isWS d = false := head_strip_not_ws s d (by rw [hz]; rfl)
    show List.dropWhile isWS (d :: rest) = d :: rest
    rw [List.dropWhile_cons_of_neg (by simp [hd])]

theorem strip_idem (s : Str) : strip (strip s) = strip s := by
  show stripR (stripL (strip s)) = strip s
  rw [stripL_strip]
  exact List.rdropWhile_idempotent isWS (stripL s)

theorem strip_concat_dot_getLast (x : Str) :
    (strip (x ++ ['.'])).getLast? = some '.' := by
  show (List.rdropWhile isWS (List.dropWhile isWS (x ++ ['.']))).getLast? = some '.'
  rw [List.dropWhile_append]
  by_cases h : (x.dropWhile isWS).isEmpty
  · rw [if_pos h]; rfl
  · rw [if_neg h]
    rw [List.rdropWhile_concat_neg isWS _ '.' (by decide)]
    simp

theorem strip_strip_append_dot (r : Str) :
    strip (strip r ++ ['.']) = strip r ++ ['.'] := by
  show List.rdropWhile isWS (List.dropWhile isWS (strip r ++ ['.'])) = strip r ++ ['.']
  rw [List.dropWhile_append]
  by_cases h : ((strip r).dropWhile isWS).isEmpty
  · rw [if_pos h]
    have h0 : strip r = [] := by
      have h1 : (strip r).dropWhile isWS = strip r := stripL_strip r
      rw [h1, List.isEmpty_iff] at h
      exact h
    rw [h0]
    rfl
  · rw [if_neg h]
    have h1 : (strip r).dropWhile isWS = strip r := stripL_strip r
    rw [h1]
    exact List.rdropWhile_concat_neg isWS (strip r) '.' (by decide)

/-! ## Lemmas about normalised sentences -/

theorem strip_normSentence (r : Str) : strip (normSentence r) = normSentence r := by
  unfold normSentence
  split
  · exact strip_strip_append_dot r
  · exact strip_idem r

theorem mem_normSentences_stripped {text s : Str} (h : s ∈ normSentences text) :
    strip s = s := by
  obtain ⟨r, _, rfl⟩ := List.mem_map.mp h
  exact strip_normSentence r

theorem normSentence_getLast (r : Str) (h : normSentence r ≠ []) :
    (normSentence r).getLast? = some '.' := by
  unfold normSentence at h ⊢
  by_cases hc : (!(strip r).isEmpty && !endsWithDot (strip r)) = true
  · rw [if_pos hc]
    simp
  · rw [if_neg hc] at h ⊢
    have hA : (strip r).isEmpty = false := by
      cases hA : (strip r).isEmpty
      · rfl
      · rw [List.isEmpty_iff] at hA
        exact absurd hA h
    have hdot : endsWithDot (strip r) = true := by
      cases hB : endsWithDot (strip r)
      · exact absurd (by simp [hA, hB]) hc
      · rfl
    simpa [endsWithDot] using hdot

theorem mem_normSentences_getLast {text s : Str} (h : s ∈ normSentences text)
    (hne : s ≠ []) : s.getLast? = some '.' := by
  obtain ⟨r, _, rfl⟩ := List.mem_map.mp h
  exact normSentence_getLast r hne

/-! ## The group decomposition of the chunker loop -/

theorem groupStr_cons (s : Str) (g : List Str) :
    groupStr (s :: g) = (s ++ [' ']) ++ groupStr g := by
  simp [groupStr]

theorem groupStr_concat (g : List Str) (s : Str) :
    groupStr (g ++ [s]) = groupStr g ++ (s ++ [' ']) := by
  simp [groupStr]

theorem groupStr_singleton (s : Str) : groupStr [s] = s ++ [' '] := by
  simp [groupStr]

theorem groupStr_isEmpty (g : List Str) : (groupStr g).isEmpty = g.isEmpty := by
  cases g with
  | nil => rfl
  | cons s t => simp [groupStr_cons]

theorem addChunk_groups (gs : List (List Str)) (cur : List Str) :
    addChunk (gs.map chunkOfGroup) (groupStr cur) = (addGroup gs cur).map chunkOfGroup := by
  unfold addChunk addGroup
  rw [groupStr_isEmpty]
  cases cur with
  | nil => rfl
  | cons s t => simp [chunkOfGroup]

theorem splitLoop_groups (maxLength : Nat) :
    ∀ (sents : List Str) (gs : List (List Str)) (cur : List Str),
      splitLoop maxLength sents (gs.map chunkOfGroup) (groupStr cur) =
        (splitGroupsLoop maxLength sents gs cur).map chunkOfGroup := by
  intro sents
  induction sents with
  | nil =>
    intro gs cur
    simp only [splitLoop, splitGroupsLoop]
    exact addChunk_groups gs cur
  | cons s rest ih =>
    intro gs cur
    simp only [splitLoop, splitGroupsLoop]
    by_cases h : (groupStr cur).length + s.length + 1 ≤ maxLength
    · rw [if_pos h, if_pos h]
      have harr : groupStr cur ++ s ++ [' '] = groupStr (cur ++ [s]) := by
        rw [groupStr_concat]
        simp
      rw [harr]
      exact ih gs (cur ++ [s])
    · rw [if_neg h, if_neg h]
      rw [addChunk_groups]
      rw [show s ++ [' '] = groupStr [s] from (groupStr_singleton s).symm]
      exact ih (addGroup gs cur) [s]

theorem split_text_groups (text : Str) (maxLength : Nat) :
    split_text text maxLength =
      (splitGroups maxLength (normSentences text)).map chunkOfGroup := by
  have h := splitLoop_groups maxLength (normSentences text) [] []
  simpa [split_text, splitGroups] using h

theorem addGroup_flatten (gs : List (List Str)) (cur : List Str) :
    (addGroup gs cur).flatten = gs.flatten ++ cur := by
  unfold addGroup
  cases cur with
  | nil => simp
  | cons s t => simp

theorem splitGroupsLoop_flatten (maxLength : Nat) :
    ∀ (sents : List Str) (gs : List (List Str)) (cur : List Str),
      (splitGroupsLoop maxLength sents gs cur).flatten = gs.flatten ++ cur ++ sents := by
  intro sents
  induction sents with
  | nil =>
    intro gs cur
    simp only [splitGroupsLoop]
    rw [addGroup_flatten]
    simp
  | cons s rest ih =>
    intro gs cur
    simp only [splitGroupsLoop]
    by_cases h : (groupStr cur).length + s.length + 1 ≤ maxLength
    · rw [if_pos h, ih gs (cur ++ [s])]
      simp
    · rw [if_neg h, ih (addGroup gs cur) [s], addGroup_flatten]
      simp

theorem splitGroups_flatten (maxLength : Nat) (sents : List Str) :
    (splitGroups maxLength sents).flatten = sents := by
  have h := splitGroupsLoop_flatten maxLength sents [] []
  simpa [splitGroups] using h

theorem splitGroupsLoop_good (maxLength : Nat) (all : List Str) :
    ∀ (sents : List Str) (gs : List (List Str)) (cur : List Str),
      (∀ g ∈ gs, GoodGroup maxLength all g) →
      (∀ s ∈ cur, s ∈ all) →
      (1 < cur.length → (groupStr cur).length ≤ maxLength) →
      (∀ s ∈ sents, s ∈ all) →
      ∀ g ∈ splitGroupsLoop maxLength sents gs cur, GoodGroup maxLength all g := by
  intro sents
  induction sents with
  | nil =>
    intro gs cur hgs hcur hlen _ g hg
    simp only [splitGroupsLoop] at hg
    unfold addGroup at hg
    cases cur with
    | nil => simpa using hgs g (by simpa using hg)
    | cons a t =>
      simp only [List.isEmpty_cons, if_neg] at hg
      rcases List.mem_append.mp hg with hmem | heq
      · exact hgs g hmem
      · have hq : g = a :: t := by simpa using heq
        subst hq
        exact ⟨List.cons_ne_nil a t, hcur, hlen⟩
  | cons s rest ih =>
    intro gs cur hgs hcur hlen hsents g hg
    simp only [splitGroupsLoop] at hg
    by_cases h : (groupStr cur).length + s.length + 1 ≤ maxLength
    · rw [if_pos h] at hg
      refine ih gs (cur ++ [s]) hgs ?_ ?_
        (fun x hx => hsents x (List.mem_cons_of_mem s hx)) g hg
      · intro x hx
        rcases List.mem_append.mp hx with hx | hx
        · exact hcur x hx
        · have hq : x = s := by simpa using hx
          subst hq
          exact hsents x (List.mem_cons_self x rest)
      · intro _
        rw [groupStr_concat]
        simp only [List.length_append, List.length_append, List.length_cons,
          List.length_nil]
        omega
    · rw [if_neg h] at hg
      refine ih (addGroup gs cur) [s] ?_ ?_ ?_
        (fun x hx => hsents x (List.mem_cons_of_mem s hx)) g hg
      · intro g' hg'
        unfold addGroup at hg'
        cases cur with
        | nil => exact hgs g' (by simpa using hg')
        | cons a t =>
          simp only [List.isEmpty_cons, if_neg] at hg'
          rcases List.mem_append.mp hg' with hmem | heq
          · exact hgs g' hmem
          · have hq : g' = a :: t := by simpa using heq
            subst hq
            exact ⟨List.cons_ne_nil a t, hcur, hlen⟩
      · intro x hx
        have hq : x = s := by simpa using hx
        subst hq
        exact hsents x (List.mem_cons_self x rest)
      · intro hl
        simp at hl

theorem splitGroups_good (maxLength : Nat) (sents : List Str) :
    ∀ g ∈ splitGroups maxLength sents, GoodGroup maxLength sents g := by
  intro g hg
  exact splitGroupsLoop_good maxLength sents sents [] []
    (by intro g' hg'; exact absurd hg' (List.not_mem_nil g'))
    (by intro x hx; exact absurd hx (List.not_mem_nil x))
    (by intro hl; simp at hl)
    (fun x hx => hx) g hg

theorem chunkOfGroup_singleton_of_stripped {s : Str} (hs : strip s = s) :
    chunkOfGroup [s] = s := by
  unfold chunkOfGroup
  rw [groupStr_singleton, strip_append_space, hs]

/-! ## The non-whitespace content is preserved -/

theorem despace_append (x y : Str) : despace (x ++ y) = despace x ++ despace y := by
  simp [despace]

theorem despace_dropWhile (s : Str) :
    despace (List.dropWhile isWS s) = despace s := by
  induction s with
  | nil => rfl
  | cons c t ih =>
    by_cases hc : isWS c
    · rw [List.dropWhile_cons_of_pos (by simpa using hc), ih]
      simp [despace, hc]
    · rw [List.dropWhile_cons_of_neg (by simpa using hc)]

theorem despace_reverse (s : Str) : despace s.reverse = (despace s).reverse := by
  simp [despace, List.filter_reverse]

theorem despace_rdropWhile (s : Str) :
    despace (List.rdropWhile isWS s) = despace s := by
  show despace (s.reverse.dropWhile isWS).reverse = despace s
  rw [despace_reverse, despace_dropWhile, despace_reverse, List.reverse_reverse]

theorem despace_strip (s : Str) : despace (strip s) = despace s := by
  show despace (List.rdropWhile isWS (List.dropWhile isWS s)) = despace s
  rw [despace_rdropWhile, despace_dropWhile]

theorem despace_groupStr (g : List Str) :
    despace (groupStr g) = (g.map despace).flatten := by
  induction g with
  | nil => rfl
  | cons s t ih =>
    rw [groupStr_cons, despace_append, despace_append, ih]
    simp [despace, isWS]

theorem despace_chunkOfGroup (g : List Str) :
    despace (chunkOfGroup g) = (g.map despace).flatten := by
  rw [chunkOfGroup, despace_strip, despace_groupStr]

theorem despace_flatten (ls : List Str) :
    despace ls.flatten = (ls.map despace).flatten := by
  induction ls with
  | nil => rfl
  | cons x t ih => simp [despace_append, ih]

theorem flatten_map_flatten (f : Str → Str) (gs : List (List Str)) :
    (gs.map (fun g => (g.map f).flatten)).flatten = (gs.flatten.map f).flatten := by
  induction gs with
  | nil => rfl
  | cons g t ih => simp [ih]

/-! ## The last character of every non-empty chunk -/

theorem chunkOfGroup_getLast (g : List Str)
    (hdot : ∀ s ∈ g, s ≠ [] → s.getLast? = some '.') :
    chunkOfGroup g = [] ∨ (chunkOfGroup g).getLast? = some '.' := by
  induction g using List.reverseRecOn with
  | nil => left; rfl
  | append_singleton g s ih =>
    by_cases hs : s = []
    · subst hs
      have heq : chunkOfGroup (g ++ [[]]) = chunkOfGroup g := by
        unfold chunkOfGroup
        rw [groupStr_concat]
        simpa using strip_append_space (groupStr g)
      rw [heq]
      exact ih (fun x hx hne => hdot x (List.mem_append_left _ hx) hne)
    · right
      have hlast : s.getLast? = some '.' :=
        hdot s (List.mem_append_right _ (List.mem_singleton_self s)) hs
      obtain ⟨x, hx⟩ := List.getLast?_eq_some_iff.mp hlast
      subst hx
      unfold chunkOfGroup
      rw [groupStr_concat, show groupStr g ++ (x ++ ['.'] ++ [' ']) =
        (groupStr g ++ (x ++ ['.'])) ++ [' '] by simp, strip_append_space,
        show groupStr g ++ (x ++ ['.']) = (groupStr g ++ x) ++ ['.'] by simp]
      exact strip_concat_dot_getLast (groupStr g ++ x)

/-! ## The code's loop equals the greedy loop with full stripping -/

theorem splitLoop_eq_greedyStripLoop (maxLength : Nat) :
    ∀ (sents chunks : List Str) (cur : Str),
      splitLoop maxLength sents chunks cur = greedyStripLoop maxLength sents chunks cur := by
  intro sents
  induction sents with
  | nil => intro chunks cur; rfl
  | cons s rest ih =>
    intro chunks cur
    simp only [splitLoop, greedyStripLoop]
    by_cases h : cur.length + s.length + 1 ≤ maxLength
    · rw [if_pos h, if_pos h]
      exact ih chunks (cur ++ s ++ [' '])
    · rw [if_neg h, if_neg h,
        show addChunk chunks cur = greedyStripFinalize chunks cur from rfl]
      exact ih (greedyStripFinalize chunks cur) (s ++ [' '])

/-! ## Claim theorems -/

/-- C1: for every text whose every normalised sentence fits the budget,
every chunk produced by `split_text` fits the budget; and a chunk that
exceeds the budget is always exactly one normalised sentence (which then
itself exceeds the budget, since the chunk is that sentence). -/
theorem split_text_respects_budget (text : Str) (maxLength : Nat) :
    ((∀ s ∈ normSentences text, s.length ≤ maxLength) →
      ∀ c ∈ split_text text maxLength, c.length ≤ maxLength) ∧
    (∀ c ∈ split_text text maxLength, maxLength < c.length →
      c ∈ normSentences text) := by
  have hdecomp := split_text_groups text maxLength
  have hgood := splitGroups_good maxLength (normSentences text)
  constructor
  · intro hbound c hc
    rw [hdecomp] at hc
    obtain ⟨g, hg, rfl⟩ := List.mem_map.mp hc
    obtain ⟨hne, hmem, hlen⟩ := hgood g hg
    cases g with
    | nil => exact absurd rfl hne
    | cons a t =>
      cases t with
      | nil =>
        rw [chunkOfGroup_singleton_of_stripped
          (mem_normSentences_stripped (hmem a (by simp)))]
        exact hbound a (hmem a (by simp))
      | cons b t2 =>
        have h2 : (groupStr (a :: b :: t2)).length ≤ maxLength := hlen (by simp)
        have h3 : (chunkOfGroup (a :: b :: t2)).length ≤
            (groupStr (a :: b :: t2)).length := length_strip_le _
        omega
  · intro c hc hover
    rw [hdecomp] at hc
    obtain ⟨g, hg, rfl⟩ := List.mem_map.mp hc
    obtain ⟨hne, hmem, hlen⟩ := hgood g hg
    cases g with
    | nil => exact absurd rfl hne
    | cons a t =>
      cases t with
      | nil =>
        rw [chunkOfGroup_singleton_of_stripped
          (mem_normSentences_stripped (hmem a (by simp)))] at hover ⊢
        exact hmem a (by simp)
      | cons b t2 =>
        have h2 : (groupStr (a :: b :: t2)).length ≤ maxLength := hlen (by simp)
        have h3 : (chunkOfGroup (a :: b :: t2)).length ≤
            (groupStr (a :: b :: t2)).length := length_strip_le _
        omega

/-- Witness for C1 at the scenario input with budget 15: every normalised
sentence fits, and the first produced chunk indeed fits. -/
theorem split_text_respects_budget_witness :
    ("Hello world.".toList : Str).length ≤ 15 :=
  (split_text_respects_budget c4text 15).1 (by decide)
    ("Hello world.".toList) (by decide)

/-- C2: with a synthesis function that returns payload `b c` for every
chunk `c`, the assembler calls it once per chunk in index order
(`calls = chunks`) and the bytes written to the output file are the exact
concatenation of the payloads in that order, with exit status 0. -/
theorem assembler_exact_concat {ε β : Type} (b : Str → List β) (chunks : List Str) :
    runSynthesis (fun c => (Except.ok (b c) : Except ε (List β))) chunks =
      ⟨chunks, some (chunks.map b).flatten, none, 0⟩ := by
  induction chunks with
  | nil => rfl
  | cons c cs ih =>
    simp only [runSynthesis, ih]
    rfl

/-- C3: if the synthesis function succeeds on every chunk before `c` and
raises on `c` (chunk number `pre.length + 1`), then the run writes no
output file, issues no request for any later chunk (the calls are exactly
`pre ++ [c]`), records the failure, and exits with status 1. -/
theorem synthesis_failure_aborts {ε β : Type} (synth : Str → Except ε (List β))
    (pre : List Str) (c : Str) (post : List Str) (e : ε)
    (hok : ∀ x ∈ pre, ∃ bs, synth x = Except.ok bs)
    (herr : synth c = Except.error e) :
    (runSynthesis synth (pre ++ c :: post)).outFile = none ∧
    (runSynthesis synth (pre ++ c :: post)).calls = pre ++ [c] ∧
    (runSynthesis synth (pre ++ c :: post)).failure = some e ∧
    (runSynthesis synth (pre ++ c :: post)).exitCode = 1 := by
  induction pre with
  | nil =>
    simp [runSynthesis, herr]
  | cons x xs ih =>
    obtain ⟨bs, hbs⟩ := hok x (List.mem_cons_self x xs)
    have ih' := ih (fun y hy => hok y (List.mem_cons_of_mem x hy))
    simp only [List.cons_append, runSynthesis, hbs]
    refine ⟨?_, ?_, ?_, ?_⟩ <;>
      simp [ih'.1, ih'.2.1, ih'.2.2.1, ih'.2.2.2]

/-- Witness for C3: on the three chunks of the scenario input,
`failingSynth` succeeds on chunk 1 and fails on chunk 2, so no file is
written, chunk 3 is never requested, and the exit status is 1. -/
theorem synthesis_failure_aborts_witness :
    (runSynthesis failingSynth (split_text c4text 15)).outFile = none ∧
    (runSynthesis failingSynth (split_text c4text 15)).calls =
      ["Hello world.".toList, "This is a test.".toList] ∧
    (runSynthesis failingSynth (split_text c4text 15)).failure =
      some ApiErr.rateLimit ∧
    (runSynthesis failingSynth (split_text c4text 15)).exitCode = 1 := by
  have hsplit : split_text c4text 15 =
      ["Hello world.".toList] ++ "This is a test.".toList :: [[]] := by decide
  rw [hsplit]
  exact synthesis_failure_aborts failingSynth ["Hello world.".toList]
    ("This is a test.".toList) [[]] ApiErr.rateLimit
    (by
      intro x hx
      have hq : x = "Hello world.".toList := by simpa using hx
      subst hq
      exact ⟨[1, 2], rfl⟩)
    rfl

/-- C4 counterexample: on the 29-character scenario input with budget 15,
`split_text` does NOT return the claimed two-element list: the input ends
with the delimiter `". "`, so the split yields a trailing empty sentence
that becomes a third, empty chunk. -/
theorem scenario_two_chunks_cex :
    split_text c4text 15 ≠ ["Hello world.".toList, "This is a test.".toList] := by
  decide

/-- C4 as amended: the scenario yields the two claimed chunks followed by
one empty chunk. -/
theorem scenario_three_chunks :
    split_text c4text 15 =
      ["Hello world.".toList, "This is a test.".toList, []] := by
  decide

/-- C5: the chunks of `split_text` are exactly the consecutive groups of
the normalised sentence sequence (`splitGroups`), rendered and stripped:
the groups flatten back to the full sentence sequence (so every sentence
lands in exactly one chunk, in order), and concatenating the chunks
preserves the entire non-whitespace content of the normalised input. -/
theorem split_text_partition (text : Str) (maxLength : Nat)
    (htext : text ≠ []) (hmax : 0 < maxLength) :
    (splitGroups maxLength (normSentences text)).flatten = normSentences text ∧
    split_text text maxLength =
      (splitGroups maxLength (normSentences text)).map chunkOfGroup ∧
    despace (split_text text maxLength).flatten =
      despace (normSentences text).flatten := by
  refine ⟨splitGroups_flatten maxLength (normSentences text),
    split_text_groups text maxLength, ?_⟩
  rw [split_text_groups text maxLength, despace_flatten, List.map_map]
  have hcongr : (splitGroups maxLength (normSentences text)).map
        (despace ∘ chunkOfGroup) =
      (splitGroups maxLength (normSentences text)).map
        (fun g => (g.map despace).flatten) :=
    List.map_congr_left (fun g _ => despace_chunkOfGroup g)
  rw [hcongr, flatten_map_flatten, splitGroups_flatten, despace_flatten]

/-- Witness for C5 at the scenario input with budget 15. -/
theorem split_text_partition_witness :
    (splitGroups 15 (normSentences c4text)).flatten = normSentences c4text ∧
    split_text c4text 15 = (splitGroups 15 (normSentences c4text)).map chunkOfGroup ∧
    despace (split_text c4text 15).flatten = despace (normSentences c4text).flatten :=
  split_text_partition c4text 15 (by decide) (by decide)

/-- C6: an input that is a single (normalised) sentence longer than the
budget produces exactly one chunk holding just that sentence. -/
theorem single_oversized_sentence (text : Str) (maxLength : Nat) (s : Str)
    (hsent : normSentences text = [s]) (hover : maxLength < s.length) :
    split_text text maxLength = [s] := by
  have hstrip : strip s = s :=
    @mem_normSentences_stripped text s
      (by rw [hsent]; exact List.mem_singleton_self s)
  have hcond : ¬(([] : Str).length + s.length + 1 ≤ maxLength) := by
    simp only [List.length_nil]
    omega
  unfold split_text
  rw [hsent]
  simp only [splitLoop, if_neg hcond]
  unfold addChunk
  simp only [List.isEmpty_nil, if_pos, List.isEmpty_eq_true, List.append_eq_nil]
  rw [if_neg (by simp)]
  rw [strip_append_space, hstrip]
  rfl

/-- Witness for C6: the single sentence "Hello world." (12 characters)
with budget 5. -/
theorem single_oversized_sentence_witness :
    split_text ("Hello world".toList) 5 = ["Hello world.".toList] :=
  single_oversized_sentence ("Hello world".toList) 5 ("Hello world.".toList)
    (by decide) (by decide)

/-- C7 counterexample: on the input ". ab" with budget 10, the code's
chunker (full `.strip()` on finalisation) disagrees with the spec's
greedy algorithm as stated (trailing whitespace trimmed only): the code
yields ["ab."], the spec algorithm yields [" ab."]. -/
theorem greedy_trailing_trim_cex :
    split_text cexC7 10 ≠ greedy_split cexC7 10 := by
  decide

/-- C7 as amended: `split_text` follows exactly the spec's greedy
algorithm once finalisation trims leading AND trailing whitespace
(Python `.strip()`). -/
theorem split_text_eq_greedy_strip (text : Str) (maxLength : Nat) :
    split_text text maxLength = greedy_strip_split text maxLength :=
  splitLoop_eq_greedyStripLoop maxLength (normSentences text) [] []

/-- C8: in all eight scripts, an absent API-key environment variable makes
the run report the missing credential and exit with status 1 before
argument parsing, file access, or any outbound API call; in particular no
`apiCall` event ever occurs without the credential. -/
theorem missing_key_aborts_all_scripts :
    (∀ chat, chat_gpt_main none chat = [Ev.missingKeyError, Ev.exited 1]) ∧
    (∀ argv chat, use_fine_tuned_model_main none argv chat =
      [Ev.missingKeyError, Ev.exited 1]) ∧
    (∀ argv lj rj le, check_fine_tune_status_main none argv lj rj le =
      [Ev.missingKeyError, Ev.exited 1]) ∧
    (∀ tfe up pr cj, fine_tune_main none tfe up pr cj =
      [Ev.missingKeyError, Ev.exited 1]) ∧
    (∀ argv e1 e2, text_embeddings_main none argv e1 e2 =
      [Ev.missingKeyError, Ev.exited 1]) ∧
    (∀ argv ie hl em, batch_embeddings_main none argv ie hl em =
      [Ev.missingKeyError, Ev.exited 1]) ∧
    (∀ argv sp, text_to_speech_main none argv sp =
      [Ev.missingKeyError, Ev.exited 1]) ∧
    (∀ argv ie ct sy, text_to_speech_file_main none argv ie ct sy =
      [Ev.missingKeyError, Ev.exited 1]) ∧
    (∀ chat ep, Ev.apiCall ep ∉ chat_gpt_main none chat) ∧
    (∀ argv chat ep, Ev.apiCall ep ∉ use_fine_tuned_model_main none argv chat) ∧
    (∀ argv lj rj le ep, Ev.apiCall ep ∉ check_fine_tune_status_main none argv lj rj le) ∧
    (∀ tfe up pr cj ep, Ev.apiCall ep ∉ fine_tune_main none tfe up pr cj) ∧
    (∀ argv e1 e2 ep, Ev.apiCall ep ∉ text_embeddings_main none argv e1 e2) ∧
    (∀ argv ie hl em ep, Ev.apiCall ep ∉ batch_embeddings_main none argv ie hl em) ∧
    (∀ argv sp ep, Ev.apiCall ep ∉ text_to_speech_main none argv sp) ∧
    (∀ argv ie ct sy ep, Ev.apiCall ep ∉ text_to_speech_file_main none argv ie ct sy) := by
  refine ⟨fun chat => rfl, fun argv chat => rfl, fun argv lj rj le => rfl,
    fun tfe up pr cj => rfl, fun argv e1 e2 => rfl, fun argv ie hl em => rfl,
    fun argv sp => rfl, fun argv ie ct sy => rfl,
    fun chat ep => ?_, fun argv chat ep => ?_, fun argv lj rj le ep => ?_,
    fun tfe up pr cj ep => ?_, fun argv e1 e2 ep => ?_, fun argv ie hl em ep => ?_,
    fun argv sp ep => ?_, fun argv ie ct sy ep => ?_⟩ <;>
    simp [chat_gpt_main, use_fine_tuned_model_main, check_fine_tune_status_main,
      fine_tune_main, text_embeddings_main, batch_embeddings_main,
      text_to_speech_main, text_to_speech_file_main, keyMissing]

/-- C9: every chunk produced by `split_text` is free of leading and
trailing whitespace (it is its own `strip`), and every non-empty chunk
ends with the character '.'. -/
theorem chunks_stripped_end_dot (text : Str) (maxLength : Nat) :
    ∀ c ∈ split_text text maxLength,
      strip c = c ∧ (c ≠ [] → c.getLast? = some '.') := by
  intro c hc
  rw [split_text_groups text maxLength] at hc
  obtain ⟨g, hg, rfl⟩ := List.mem_map.mp hc
  obtain ⟨hne, hmem, _⟩ := splitGroups_good maxLength (normSentences text) g hg
  refine ⟨strip_idem (groupStr g), ?_⟩
  intro hcne
  rcases chunkOfGroup_getLast g
    (fun s hs hsne => mem_normSentences_getLast (hmem s hs) hsne) with h | h
  · exact absurd h hcne
  · exact h

/-- Witness for C9 at the first chunk of the scenario input. -/
theorem chunks_stripped_end_dot_witness :
    strip ("Hello world.".toList) = "Hello world.".toList ∧
      ("Hello world.".toList).getLast? = some '.' := by
  have h := chunks_stripped_end_dot c4text 15 ("Hello world.".toList) (by decide)
  exact ⟨h.1, h.2 (by decide)⟩

/-- C10: the scenario input is non-empty, ends with the literal delimiter
". ", and `split_text` gives it a final empty chunk; the synthesis loop
then submits that empty chunk to the service exactly like the others (it
appears in the call sequence, which equals the chunk sequence). -/
theorem trailing_empty_chunk_submitted :
    c4text ≠ [] ∧
    (split_text c4text 15).getLast? = some [] ∧
    (runSynthesis echoSynth (split_text c4text 15)).calls = split_text c4text 15 ∧
    [] ∈ (runSynthesis echoSynth (split_text c4text 15)).calls := by
  decide
